import Mathlib

/-!
Verification of the Mixin Safe keeper and observer drivers against a shallow
embedding of the Go sources. Machine integers are embedded as `Nat` (heights,
fees and satoshi values never approach 2^64 on the paths modelled here and the
Go code performs no wrapping arithmetic on them), byte strings as `List Nat`,
and SQL stores as association lists keyed the way the tables are. External
RPC calls and cryptographic verification primitives are passed in as function
parameters, exactly where the Go code calls out of the package.
-/

/-! ## Shared constants (common package; the enum values are fixed by the
wire format: state enum Initial=1 Pending=2 Done=3 Failed=4, roles
Holder=1 Signer=2 Observer=3, chains Bitcoin=1 Ethereum=2 Litecoin=5
Polygon=6). -/

def RequestStateInitial : Nat := 1

def RequestStatePending : Nat := 2

def RequestStateDone : Nat := 3

def RequestStateFailed : Nat := 4

def RequestRoleHolder : Nat := 1

def RequestRoleSigner : Nat := 2

def RequestRoleObserver : Nat := 3

def SafeChainBitcoin : Nat := 1

def SafeChainEthereum : Nat := 2

def SafeChainLitecoin : Nat := 5

def SafeChainPolygon : Nat := 6

/-! ## Network info verification (keeper, `writeNetworkInfo` and
`verifyBitcoinNetworkInfo` / `verifyEthereumNetworkInfo`). -/

/-- keeper constants: `bitcoinMinimumFeeRate = 1`, `bitcoinMaximumFeeRate = 1000`. -/
def bitcoinMinimumFeeRate : Nat := 1

def bitcoinMaximumFeeRate : Nat := 1000

/-- A stored `store.NetworkInfo` row. The Go code stores the block hash as a
hex string; we keep the underlying bytes, so the Go check `len(info.Hash) != 64`
(64 hex characters) becomes `hash.length ≠ 32`. -/
structure NetworkInfo where
  requestId : String
  chain : Nat
  fee : Nat
  height : Nat
  hash : List Nat
  deriving Repr, DecidableEq

/-- The part of an RPC block reply that the verification reads. -/
structure Block where
  height : Nat
  confirmations : Int
  deriving Repr, DecidableEq

/-- A keeper request as `writeNetworkInfo` consumes it: id, role, curve and
the raw extra bytes. -/
structure Request where
  id : String
  role : Nat
  curve : Nat
  extra : List Nat
  deriving Repr, DecidableEq

/-- Big-endian `binary.BigEndian.Uint64` over a byte list. -/
def beUint64 (bs : List Nat) : Nat :=
  bs.foldl (fun a b => a * 256 + b) 0

/-- Result of the Go pair `(valid bool, err error)`: `valid` is `(true, nil)`,
`invalid` is `(false, nil)` (the caller fails the request), `err` is
`(false, non-nil)` (the caller panics). -/
inductive Verify where
  | valid
  | invalid
  | err
  deriving Repr, DecidableEq

/-- Embedding of `node.verifyBitcoinNetworkInfo(info, old)`: hash length check, then either
the stored-hash re-affirmation branch or the RPC block branch, then the fee
bounds. `rpc` stands for `bitcoin.RPCGetBlock`. -/
def verifyBitcoinNetworkInfo (rpc : List Nat → Option Block)
    (info : NetworkInfo) (old : Option NetworkInfo) : Verify :=
  if info.hash.length ≠ 32 then .invalid
  else
    match (match old with
      | some o =>
        if o.hash = info.hash then
          if o.height ≠ info.height then some Verify.err else none
        else
          match rpc info.hash with
          | none => some Verify.err
          | some block =>
            if block.height ≠ info.height then some Verify.err
            else if block.confirmations = -1 then some Verify.err
            else none
      | none =>
        match rpc info.hash with
        | none => some Verify.err
        | some block =>
          if block.height ≠ info.height then some Verify.err
          else if block.confirmations = -1 then some Verify.err
          else none) with
    | some v => v
    | none =>
      if info.fee < bitcoinMinimumFeeRate ∨ info.fee > bitcoinMaximumFeeRate then .invalid
      else .valid

/-- Embedding of `node.verifyEthereumNetworkInfo(info, old)`: hash length check (66 hex
characters with the `0x` prefix, i.e. 32 bytes), re-affirmation or RPC block
branch; no fee or confirmation check. -/
def verifyEthereumNetworkInfo (rpc : List Nat → Option Block)
    (info : NetworkInfo) (old : Option NetworkInfo) : Verify :=
  if info.hash.length ≠ 32 then .invalid
  else
    match old with
    | some o =>
      if o.hash = info.hash then
        if o.height ≠ info.height then .err else .valid
      else
        match rpc info.hash with
        | none => .err
        | some block =>
          if block.height ≠ info.height then .err else .valid
    | none =>
      match rpc info.hash with
      | none => .err
      | some block =>
        if block.height ≠ info.height then .err else .valid

/-- Outcome of `writeNetworkInfo`: `failed` is `node.failRequest` (nothing
stored), `fatal` is a Go panic, `written info` is
`store.WriteNetworkInfoFromRequest(ctx, info, req)`. -/
inductive WriteResult where
  | failed
  | fatal
  | written (info : NetworkInfo)
  deriving Repr, DecidableEq

/-- The `store.NetworkInfo` record `writeNetworkInfo` parses out of a
request: `info.Chain = extra[0]`, `info.Fee = BigEndian.Uint64(extra[1:9])`,
`info.Height = BigEndian.Uint64(extra[9:17])`, `info.Hash = extra[17:]`
(hex-encoded in Go, raw bytes here, with the ethereum `0x` prefix absorbed
into the hex length check). -/
def networkInfoFromRequest (req : Request) : NetworkInfo :=
  { requestId := req.id
    chain := req.extra.headD 0
    fee := beUint64 ((req.extra.drop 1).take 8)
    height := beUint64 ((req.extra.drop 9).take 8)
    hash := req.extra.drop 17 }

/-- The chain switch of `node.writeNetworkInfo`: curve/chain match panic,
then the per-chain verification, an unknown chain failing the request. -/
def writeNetworkInfoChain (curveChain : Nat → Nat)
    (btcRpc ethRpc : List Nat → Option Block)
    (old : Option NetworkInfo) (req : Request) : WriteResult :=
  let info := networkInfoFromRequest req
  if info.chain ≠ curveChain req.curve then .fatal
  else if info.chain = SafeChainBitcoin ∨ info.chain = SafeChainLitecoin then
    match verifyBitcoinNetworkInfo btcRpc info old with
    | .valid => .written info
    | .invalid => .failed
    | .err => .fatal
  else if info.chain = SafeChainEthereum ∨ info.chain = SafeChainPolygon then
    match verifyEthereumNetworkInfo ethRpc info old with
    | .valid => .written info
    | .invalid => .failed
    | .err => .fatal
  else .failed

/-- Embedding of `node.writeNetworkInfo(ctx, req)`: role check, extra length, duplicate
and lower-height guards against the latest stored record, then the chain
switch. `curveChain` stands for `common.SafeCurveChain`, `btcRpc` / `ethRpc`
for the chain RPC clients, `old` for
`store.ReadLatestNetworkInfo(info.Chain, ...)`. -/
def writeNetworkInfo (curveChain : Nat → Nat)
    (btcRpc ethRpc : List Nat → Option Block)
    (old : Option NetworkInfo) (req : Request) : WriteResult :=
  if req.role ≠ RequestRoleObserver then .fatal
  else if req.extra.length < 17 then .failed
  else if (match old with
    | some o => o.requestId == req.id
    | none => false) then .failed
  else if (match old with
    | some o => decide ((networkInfoFromRequest req).height < o.height)
    | none => false) then .failed
  else writeNetworkInfoChain curveChain btcRpc ethRpc old req

/-- One network-info request together with the environment it is processed
against (the RPC answers and the curve-to-chain map at that time). -/
structure NetworkStep where
  req : Request
  btcRpc : List Nat → Option Block
  ethRpc : List Nat → Option Block
  curveChain : Nat → Nat

/-- The store update performed by one `writeNetworkInfo` call on the per-chain
latest-network-info table: a successful `WriteNetworkInfoFromRequest` replaces
the record for `info.chain`; failing or panicking stores nothing. -/
def applyNetworkRequest (step : NetworkStep)
    (store : Nat → Option NetworkInfo) : Nat → Option NetworkInfo :=
  let chain := step.req.extra.headD 0
  match writeNetworkInfo step.curveChain step.btcRpc step.ethRpc (store chain) step.req with
  | .written info => fun c => if c = info.chain then some info else store c
  | _ => store

/-- Run a sequence of network-info requests against the store. -/
def runNetworkSteps (store : Nat → Option NetworkInfo)
    (steps : List NetworkStep) : Nat → Option NetworkInfo :=
  steps.foldl (fun st s => applyNetworkRequest s st) store

/-- The stored latest height for a chain, 0 when nothing is stored. -/
def heightAt (store : Nat → Option NetworkInfo) (c : Nat) : Nat :=
  match store c with
  | some i => i.height
  | none => 0

/-! ## Ethereum recovery signature verification (observer driver,
`keeperVerifyEthereumTransactionSignatures`). -/

/-- The unmarshalled `ethereum.SafeTransaction` as far as the driver reads it:
its hash and the hex of its marshalled bytes. -/
structure SafeTransactionInfo where
  txHash : String
  raw : String
  deriving Repr, DecidableEq

/-- An observer-store transaction approval row, the fields the driver reads
and writes. -/
structure EthTransactionApproval where
  transactionHash : String
  holder : String
  state : Nat
  raw : String
  deriving Repr, DecidableEq

/-- A keeper-store safe row, the fields the driver reads. -/
structure EthSafe where
  holder : String
  signer : String
  observer : String
  address : String
  chain : Nat
  deriving Repr, DecidableEq

/-- Outcome of `keeperVerifyEthereumTransactionSignatures`: `readError` is a
store read error, `alreadyDone` the early return on `tx.State >= Done`,
`fatal` a Go panic, `insufficient` the insufficient-signatures error return,
`finalized` the path through `UpdateRecoveryState` and
`FinishTransactionSignatures`. -/
inductive EthVerifyOutcome where
  | readError
  | alreadyDone
  | fatal
  | insufficient (sigs : Nat)
  | finalized
  deriving Repr, DecidableEq

/-- Embedding of `node.keeperVerifyEthereumTransactionSignatures(ctx, extra)`. `signedBy`
stands for `ethereum.CheckTransactionPartiallySignedBy(raw, pub)`. The store
effect of `FinishTransactionSignatures` (move the approval to state Done with
the new raw) is modelled from the spec, the function itself being outside the
sources; everything else follows the Go body. Returns the outcome and the
updated approval table. -/
def keeperVerifyEthereumTransactionSignatures (signedBy : String → String → Bool)
    (txs : List EthTransactionApproval) (safes : List EthSafe)
    (st : SafeTransactionInfo) : EthVerifyOutcome × List EthTransactionApproval :=
  match txs.find? (fun t => t.transactionHash == st.txHash) with
  | none => (.readError, txs)
  | some tx =>
    if RequestStateDone ≤ tx.state then (.alreadyDone, txs)
    else
      match safes.find? (fun s => s.holder == tx.holder) with
      | none => (.fatal, txs)
      | some safe =>
        if safe.chain ≠ SafeChainEthereum ∧ safe.chain ≠ SafeChainPolygon then (.fatal, txs)
        else
          let sigs := [safe.holder, safe.observer, safe.signer].countP
            (fun pub => signedBy st.raw pub)
          if sigs < 2 then (.insufficient sigs, txs)
          else
            (.finalized, txs.map (fun t =>
              if t.transactionHash == st.txHash then
                { t with state := RequestStateDone, raw := st.raw }
              else t))

/-! ## Observer bitcoin UTXO store (`bitcoin_outputs` table:
`AssignBitcoinUTXOByRangeForTransaction`, `WriteBitcoinUTXOIfNotExists`,
`WriteBitcoinFeeOutput`). -/

/-- A `bitcoin_outputs` row, the columns the modelled operations touch. -/
structure Output where
  transactionHash : String
  index : Nat
  address : String
  satoshi : Nat
  chain : Nat
  state : Nat
  spentBy : Option String
  deriving Repr, DecidableEq

/-- The `(transaction_hash, output_index)` primary key. -/
def Output.key (o : Output) : String × Nat :=
  (o.transactionHash, o.index)

/-- The fields of the spending transaction the store operations read. -/
structure TransactionRef where
  transactionHash : String
  chain : Nat
  deriving Repr, DecidableEq

/-- Primary-key lookup, `SELECT ... WHERE transaction_hash=? AND output_index=?`. -/
def findOutput (store : List Output) (hash : String) (idx : Nat) : Option Output :=
  store.find? (fun o => decide (o.transactionHash = hash ∧ o.index = idx))

/-- The `UPDATE bitcoin_outputs SET state=Done, spent_by=? WHERE
transaction_hash=? AND output_index=? AND state=Initial AND spent_by IS NULL`
step, under `execOne` (exactly one row must be affected; the primary key makes
the keyed row unique, so the execOne condition is that row's state and
spent_by). `none` is the Go error return, rolling the transaction back. -/
def updateSpend (store : List Output) (hash : String) (idx : Nat)
    (spender : String) : Option (List Output) :=
  match findOutput store hash idx with
  | none => none
  | some o =>
    if o.state = RequestStateInitial ∧ o.spentBy = none then
      some (store.map (fun r =>
        if r.transactionHash = hash ∧ r.index = idx then
          { r with state := RequestStateDone, spentBy := some spender }
        else r))
    else none

/-- The `WHERE` disjunction of the assignment query:
`(chain=? AND satoshi>=? AND satoshi<=? AND state=Initial) OR (spent_by=?)`. -/
def assignQueryPred (tx : TransactionRef) (lo hi : Nat) (o : Output) : Bool :=
  (o.chain == tx.chain && lo ≤ o.satoshi && o.satoshi ≤ hi
    && o.state == RequestStateInitial) || (o.spentBy == some tx.transactionHash)

/-- Embedding of `SQLite3Store.AssignBitcoinUTXOByRangeForTransaction(min, max, tx)`:
select one row matching the query; no row is `(nil, nil)`; a row already
spent by this transaction is returned unchanged; otherwise flip it
Initial→Done with `spent_by` set, under the execOne guard. `none` is the
error return (rollback, store unchanged). -/
def AssignBitcoinUTXOByRangeForTransaction (store : List Output)
    (lo hi : Nat) (tx : TransactionRef) : Option (Option Output × List Output) :=
  match store.find? (assignQueryPred tx lo hi) with
  | none => some (none, store)
  | some o =>
    if o.spentBy = some tx.transactionHash then some (some o, store)
    else
      match updateSpend store o.transactionHash o.index tx.transactionHash with
      | none => none
      | some store2 => some (some o, store2)

/-- Embedding of `SQLite3Store.WriteBitcoinUTXOIfNotExists(utxo)`: panic unless the new
row's state is Initial; keep the store unchanged when the key already exists;
insert otherwise. `none` is a Go panic. -/
def WriteBitcoinUTXOIfNotExists (store : List Output) (utxo : Output) :
    Option (List Output) :=
  if utxo.state ≠ RequestStateInitial then none
  else
    match findOutput store utxo.transactionHash utxo.index with
    | some _ => some store
    | none => some (store ++ [utxo])

/-- The input-spending loop of `WriteBitcoinFeeOutput`: every previous
outpoint of the fee-splitter transaction is flipped Initial→Done with
`spent_by` the splitter's own hash, each under the execOne guard; any failure
rolls the whole transaction back. -/
def spendFeeInputs (store : List Output) (hash : String) :
    List (String × Nat) → Option (List Output)
  | [] => some store
  | (h, i) :: rest =>
    match updateSpend store h i hash with
    | none => none
    | some store2 => spendFeeInputs store2 hash rest

/-- The row `WriteBitcoinFeeOutput` inserts for output `i` of the splitter:
output 0 is born in state Done with `spent_by` the funded transaction's hash;
every other output is born Initial and unspent. -/
def feeOutputRow (hash : String) (i : Nat) (receiver : String) (value : Nat)
    (chain : Nat) (spender : String) : Output :=
  if i = 0 then
    { transactionHash := hash, index := i, address := receiver, satoshi := value
      chain := chain, state := RequestStateDone, spentBy := some spender }
  else
    { transactionHash := hash, index := i, address := receiver, satoshi := value
      chain := chain, state := RequestStateInitial, spentBy := none }

/-- The output-insertion loop of `WriteBitcoinFeeOutput`; an insert on an
existing primary key is an error, rolling the whole transaction back. -/
def insertFeeOutputs (hash receiver : String) (chain : Nat) (spender : String)
    (store : List Output) : List (Nat × Nat) → Option (List Output)
  | [] => some store
  | (i, v) :: rest =>
    match findOutput store hash i with
    | some _ => none
    | none =>
      insertFeeOutputs hash receiver chain spender
        (store ++ [feeOutputRow hash i receiver v chain spender]) rest

/-- Embedding of `SQLite3Store.WriteBitcoinFeeOutput(msgTx, receiver, tx)`: spend every
input of the fee-splitter `msgTx` (hash `hash`, inputs `ins`, output values
`outs`), then insert its outputs, output 0 born spent by `tx`. `none` is the
error return (rollback). -/
def WriteBitcoinFeeOutput (store : List Output) (hash : String)
    (ins : List (String × Nat)) (outs : List Nat) (receiver : String)
    (chain : Nat) (tx : TransactionRef) : Option (List Output) :=
  match spendFeeInputs store hash ins with
  | none => none
  | some store2 => insertFeeOutputs hash receiver chain tx.transactionHash store2 outs.enum

/-- The operations of the `bitcoin_outputs` table, closed under which the
assignment invariants are stated. -/
inductive StoreOp where
  | writeUTXO (utxo : Output)
  | assign (lo hi : Nat) (tx : TransactionRef)
  | feeOutput (hash : String) (ins : List (String × Nat)) (outs : List Nat)
      (receiver : String) (chain : Nat) (tx : TransactionRef)
  deriving Repr

/-- Apply one store operation; errors and panics roll back, leaving the store
unchanged, exactly as the Go `defer Rollback` does. -/
def applyStoreOp (store : List Output) : StoreOp → List Output
  | .writeUTXO utxo =>
    match WriteBitcoinUTXOIfNotExists store utxo with
    | some store2 => store2
    | none => store
  | .assign lo hi tx =>
    match AssignBitcoinUTXOByRangeForTransaction store lo hi tx with
    | some (_, store2) => store2
    | none => store
  | .feeOutput hash ins outs receiver chain tx =>
    match WriteBitcoinFeeOutput store hash ins outs receiver chain tx with
    | some store2 => store2
    | none => store

/-- The transaction a UTXO row is assigned to, `none` when unassigned or the
row is absent. -/
def spentOf (store : List Output) (hash : String) (idx : Nat) : Option String :=
  match findOutput store hash idx with
  | some o => o.spentBy
  | none => none

/-- Well-formedness of the table: the primary key is unique, and an Initial
row is unassigned (`spent_by IS NULL`). -/
def wfStore (store : List Output) : Prop :=
  (store.map Output.key).Nodup ∧
    ∀ o ∈ store, o.state = RequestStateInitial → o.spentBy = none

/-! ## Bitcoin signature combination (observer driver,
`bitcoinAccountantSignTransaction`). -/

/-- A PSBT partial signature: compressed public key (hex) and DER signature
bytes. -/
structure PartialSig where
  pubKey : String
  signature : List Nat
  deriving Repr, DecidableEq

/-- The sighash flag `byte(txscript.SigHashAll)`. -/
def SigHashAll : Nat := 1

/-- Everything `bitcoinAccountantSignTransaction` reads about one transaction
input: whether the previous outpoint pays the safe (so a multisig witness is
required), the holder's partial sig from the stored PSBT, the signer's partial
sig from the delivered PSBT, the input's sighash, the spent UTXO's witness
script, and the keeper's stored signature response for this input index. -/
structure BtcInputCtx where
  required : Bool
  hsig : PartialSig
  ssig : PartialSig
  sigHash : List Nat
  script : List Nat
  storedSig : Option (List Nat)
  deriving Repr, DecidableEq

/-- The multisig-branch witness assembly for one required input of
`bitcoinAccountantSignTransaction`: the holder partial-sig pubkey must equal
the transaction's Holder, the signer partial-sig pubkey must equal the
transaction's Signer, the signer signature must equal the stored keeper
signature response and DER-verify against the signer key over the input
sighash; the resulting witness stack is
`[empty, holderSig||SIGHASH_ALL, signerSig||SIGHASH_ALL, 1, script]`.
`derVerify pub msg sig` stands for `ecdsa.ParseDERSignature(sig).Verify(msg, pub)`;
`none` is a Go panic. -/
def bitcoinSafeInputWitness (derVerify : String → List Nat → List Nat → Bool)
    (holder signer : String) (c : BtcInputCtx) : Option (List (List Nat)) :=
  if c.hsig.pubKey ≠ holder then none
  else if c.ssig.pubKey ≠ signer then none
  else if c.storedSig ≠ some c.ssig.signature then none
  else if derVerify signer c.sigHash c.ssig.signature = false then none
  else some [[], c.hsig.signature ++ [SigHashAll],
    c.ssig.signature ++ [SigHashAll], [1], c.script]

/-- The accountant-branch witness for a non-safe input: the accountant key
signs the sighash and the witness is `[sig||SIGHASH_ALL, script]`.
`accSign` stands for `ecdsa.Sign(accountant, hash).Serialize()`. -/
def bitcoinAccountantInputWitness (accSign : List Nat → List Nat)
    (c : BtcInputCtx) : List (List Nat) :=
  [accSign c.sigHash ++ [SigHashAll], c.script]

/-- Outcome of `bitcoinAccountantSignTransaction`: the early no-op return on
a Done approval, the hard abort (Go panic, nothing finalized, nothing
broadcast), or finalize-and-broadcast with the per-input witness stacks. -/
inductive SignOutcome where
  | alreadyDone
  | aborted
  | broadcast (witnesses : List (List (List Nat)))
  deriving Repr, DecidableEq

/-- Embedding of `node.bitcoinAccountantSignTransaction(ctx, extra)`: return early when the
stored approval is Done; otherwise assemble each input's witness — the safe
multisig stack for required inputs, the accountant stack otherwise — aborting
the whole process on any check failure; only a fully assembled transaction
reaches `FinishTransactionSignatures` and broadcast. -/
def bitcoinAccountantSignTransaction (derVerify : String → List Nat → List Nat → Bool)
    (accSign : List Nat → List Nat) (holder signer : String) (txState : Nat)
    (inputs : List BtcInputCtx) : SignOutcome :=
  if txState = RequestStateDone then .alreadyDone
  else
    match inputs.mapM (fun c =>
      if c.required then bitcoinSafeInputWitness derVerify holder signer c
      else some (bitcoinAccountantInputWitness accSign c)) with
    | none => .aborted
    | some ws => .broadcast ws

/-! ## Bitcoin broadcast (observer driver, `bitcoinBroadcastTransaction`). -/

/-- The reply of `bitcoin.RPCSendRawTransaction`: a txid or an error message. -/
inductive RpcSendResult where
  | ok (id : String)
  | rpcErr (msg : String)
  deriving Repr, DecidableEq

/-- Does the pattern (first argument) lead the message characters? -/
def listStartsWith : List Char → List Char → Bool
  | [], _ => true
  | _ :: _, [] => false
  | p :: ps, m :: ms => p == m && listStartsWith ps ms

/-- Does `pat` occur as a contiguous sublist of the message characters? -/
def listContainsSub (pat : List Char) : List Char → Bool
  | [] => listStartsWith pat []
  | c :: ms => listStartsWith pat (c :: ms) || listContainsSub pat ms

/-- Embedding of `strings.Contains(msg, pat)`: `pat` occurs as a contiguous
substring of `msg`. -/
def containsSubstring (msg pat : String) : Bool :=
  listContainsSub pat.data msg.data

/-- Outcome of `bitcoinBroadcastTransaction`. -/
inductive BroadcastResult where
  | success
  | sendError (msg : String)
  | malformed (hash id : String)
  deriving Repr, DecidableEq

/-- Embedding of `node.bitcoinBroadcastTransaction(hash, raw, chain)`: an RPC error whose
message contains "Transaction already in block chain" is success; any other
RPC error is returned; a returned txid different from the locally computed
hash is the malformed-broadcast error. -/
def bitcoinBroadcastTransaction (send : RpcSendResult) (hash : String) :
    BroadcastResult :=
  match send with
  | .rpcErr msg =>
    if containsSubstring msg "Transaction already in block chain" then .success
    else .sendError msg
  | .ok id => if id ≠ hash then .malformed hash id else .success

/-! ## MTG output processing and the action-result cache. -/

/-- The identifying fields of a delivered MTG output. -/
structure MtgOutput where
  outputId : String
  requestId : String
  deriving Repr, DecidableEq

/-- Modelled from the spec: the keeper/mtg action processor with its
action-result cache is not under the sources (only its tests and the signer
caller are). Per spec §5, a delivery is recognized by `(OutputId, RequestId)`
in the action-result cache and the second call must return the same
transactions as the first. The processor state is the inner keeper state
together with the cache. -/
structure ProcState (σ Tx : Type) where
  inner : σ
  cache : List ((String × String) × List Tx)

/-- Modelled from the spec: lookup in the action-result cache by
`(OutputId, RequestId)`. -/
def cacheLookup {Tx : Type} (c : List ((String × String) × List Tx))
    (k : String × String) : Option (List Tx) :=
  (c.find? (fun e => decide (e.1 = k))).map (fun e => e.2)

/-- Modelled from the spec: `ProcessOutput` — a cache hit returns the cached
transactions with no state change; a miss runs the action handler and records
its result under `(OutputId, RequestId)`. -/
def processOutput {σ Tx : Type} (handler : σ → MtgOutput → σ × List Tx)
    (s : ProcState σ Tx) (out : MtgOutput) : ProcState σ Tx × List Tx :=
  match cacheLookup s.cache (out.outputId, out.requestId) with
  | some txs => (s, txs)
  | none =>
    let r := handler s.inner out
    ({ inner := r.1, cache := ((out.outputId, out.requestId), r.2) :: s.cache }, r.2)

/-- Modelled from the spec: deliver a list of outputs in order, keeping only
the state. -/
def processOutputs {σ Tx : Type} (handler : σ → MtgOutput → σ × List Tx)
    (s : ProcState σ Tx) (outs : List MtgOutput) : ProcState σ Tx :=
  outs.foldl (fun st o => (processOutput handler st o).1) s

/-! ## SafeRevokeTransaction. -/

/-- A keeper-store transaction row, the fields the revoke handler touches. -/
structure KeeperTransaction where
  transactionHash : String
  requestId : String
  holder : String
  state : Nat
  deriving Repr, DecidableEq

/-- A keeper-store signature request row. -/
structure SignatureRequest where
  requestId : String
  transactionHash : String
  inputIndex : Nat
  state : Nat
  deriving Repr, DecidableEq

/-- The keeper state the revoke handler touches: transactions, their
signature requests and the safe's UTXO table (reusing the `bitcoin_outputs`
row shape: a pending transaction holds its inputs via `spent_by`). -/
structure KeeperState where
  transactions : List KeeperTransaction
  signatureRequests : List SignatureRequest
  utxos : List Output
  deriving Repr, DecidableEq

/-- Modelled from the spec: the `SafeRevokeTransaction` handler is not under
the sources (only its test is). Per spec §4.2 the handler verifies an ECDSA
signature over `REVOKE:<requestId>:<txHash>` against the holder key or the
derived observer key, marks the transaction Failed, leaves no signature
request of the transaction in state Initial, and releases every UTXO the
transaction had assigned back to Initial. `verifySig msg pub` stands for the
bitcoin signed-message verification; `none` is the failure path (request
failed, state unchanged). -/
def safeRevokeTransaction (verifySig : String → String → Bool)
    (holder observerDerived : String) (st : KeeperState) (reqId : String) :
    Option KeeperState :=
  match st.transactions.find? (fun t => t.requestId == reqId) with
  | none => none
  | some t =>
    let msg := "REVOKE:" ++ reqId ++ ":" ++ t.transactionHash
    if verifySig msg holder || verifySig msg observerDerived then
      some
        { transactions := st.transactions.map (fun u =>
            if u.transactionHash = t.transactionHash then
              { u with state := RequestStateFailed }
            else u)
          signatureRequests := st.signatureRequests.map (fun r =>
            if r.transactionHash = t.transactionHash ∧ r.state = RequestStateInitial then
              { r with state := RequestStateFailed }
            else r)
          utxos := st.utxos.map (fun o =>
            if o.spentBy = some t.transactionHash then
              { o with state := RequestStateInitial, spentBy := none }
            else o) }
    else none

/-- The non-fee preconditions of `verifyBitcoinNetworkInfo`'s block section:
either the re-affirmation branch applies (same stored hash, same height), or
the hash is new and the RPC block check passes (block found at the claimed
height, not on a dead fork). -/
def bitcoinBlockCheckPasses (rpc : List Nat → Option Block) (info : NetworkInfo)
    (old : Option NetworkInfo) : Prop :=
  (∃ o, old = some o ∧ o.hash = info.hash ∧ o.height = info.height) ∨
    ((∀ o, old = some o → o.hash ≠ info.hash) ∧
      ∃ b, rpc info.hash = some b ∧ b.height = info.height ∧ b.confirmations ≠ -1)

/-! ## Helper lemmas. -/

theorem find?_map_of_pred {α : Type} (f : α → α) (p : α → Bool) (l : List α)
    (hp : ∀ x, p (f x) = p x) : (l.map f).find? p = (l.find? p).map f := by
  rw [List.find?_map f l]
  have : p ∘ f = p := funext hp
  rw [this]

theorem find?_append_of_some {α : Type} {p : α → Bool} {l₁ : List α} (l₂ : List α)
    {a : α} (h : l₁.find? p = some a) : (l₁ ++ l₂).find? p = some a := by
  rw [List.find?_append, h]
  rfl

/-! ## Claim C9. -/

/-- Claim C9: for every broadcast attempt, `bitcoinBroadcastTransaction`
returns success when `RPCSendRawTransaction` reports the transaction is
already in the block chain, and returns a malformed-broadcast error whenever
the txid returned by the RPC differs from the locally computed transaction
hash. -/
theorem bitcoinBroadcastTransaction_already_in_chain_and_malformed :
    (∀ msg hash, containsSubstring msg "Transaction already in block chain" = true →
      bitcoinBroadcastTransaction (.rpcErr msg) hash = .success) ∧
    (∀ id hash, id ≠ hash →
      bitcoinBroadcastTransaction (.ok id) hash = .malformed hash id) := by
  constructor
  · intro msg hash h
    simp [bitcoinBroadcastTransaction, h]
  · intro id hash h
    simp [bitcoinBroadcastTransaction, h]

/-- Witness for C9 at concrete inputs. -/
theorem bitcoinBroadcastTransaction_already_in_chain_and_malformed_witness :
    bitcoinBroadcastTransaction
        (.rpcErr "error: Transaction already in block chain (code -27)") "aa" = .success ∧
    bitcoinBroadcastTransaction (.ok "bb") "aa" = .malformed "aa" "bb" :=
  ⟨bitcoinBroadcastTransaction_already_in_chain_and_malformed.1 _ _ (by decide),
   bitcoinBroadcastTransaction_already_in_chain_and_malformed.2 _ _ (by decide)⟩

/-! ## Claim C10. -/

/-- Claim C10: `WriteBitcoinUTXOIfNotExists` is first-write-wins — when a row
with the same `(transaction_hash, output_index)` exists it returns the store
completely unchanged, whatever the new UTXO's other fields are; every row it
inserts has state Initial; and it panics on any attempt to insert a UTXO in
another state. -/
theorem writeBitcoinUTXO_first_write_wins :
    (∀ (store : List Output) (utxo old : Output),
      utxo.state = RequestStateInitial →
      findOutput store utxo.transactionHash utxo.index = some old →
      WriteBitcoinUTXOIfNotExists store utxo = some store) ∧
    (∀ (store : List Output) (utxo : Output) (store2 : List Output),
      WriteBitcoinUTXOIfNotExists store utxo = some store2 →
      ∀ o ∈ store2, o ∈ store ∨ (o = utxo ∧ o.state = RequestStateInitial)) ∧
    (∀ (store : List Output) (utxo : Output),
      utxo.state ≠ RequestStateInitial →
      WriteBitcoinUTXOIfNotExists store utxo = none) := by
  refine ⟨?_, ?_, ?_⟩
  · intro store utxo old hstate hfind
    simp [WriteBitcoinUTXOIfNotExists, hstate, hfind]
  · intro store utxo store2 h o ho
    unfold WriteBitcoinUTXOIfNotExists at h
    by_cases hstate : utxo.state = RequestStateInitial
    · simp only [hstate, ne_eq, not_true_eq_false, if_false] at h
      cases hfind : findOutput store utxo.transactionHash utxo.index with
      | some r =>
        rw [hfind] at h
        simp only [Option.some.injEq] at h
        subst h
        exact Or.inl ho
      | none =>
        rw [hfind] at h
        simp only [Option.some.injEq] at h
        subst h
        rcases List.mem_append.mp ho with hm | hm
        · exact Or.inl hm
        · simp only [List.mem_singleton] at hm
          exact Or.inr ⟨hm, hm ▸ hstate⟩
    · simp [hstate] at h
  · intro store utxo hstate
    simp [WriteBitcoinUTXOIfNotExists, hstate]

/-- Witness for C10 at concrete inputs: an existing row at key `("a", 0)` is
untouched by a differing duplicate, a fresh insert lands in state Initial,
and a non-Initial insert panics. -/
theorem writeBitcoinUTXO_first_write_wins_witness :
    WriteBitcoinUTXOIfNotExists
        [{ transactionHash := "a", index := 0, address := "x", satoshi := 5,
           chain := 1, state := RequestStateInitial, spentBy := none }]
        { transactionHash := "a", index := 0, address := "y", satoshi := 9,
          chain := 2, state := RequestStateInitial, spentBy := none }
      = some [{ transactionHash := "a", index := 0, address := "x", satoshi := 5,
                chain := 1, state := RequestStateInitial, spentBy := none }] ∧
    WriteBitcoinUTXOIfNotExists []
        { transactionHash := "b", index := 1, address := "z", satoshi := 7,
          chain := 1, state := RequestStateDone, spentBy := none } = none :=
  ⟨writeBitcoinUTXO_first_write_wins.1 _ _
      { transactionHash := "a", index := 0, address := "x", satoshi := 5,
        chain := 1, state := RequestStateInitial, spentBy := none }
      (by decide) (by decide),
   writeBitcoinUTXO_first_write_wins.2.2 _ _ (by decide)⟩

/-! ## Lemmas about the bitcoin_outputs operations. -/

theorem updateSpend_inv {store store2 : List Output} {h' : String} {i' : Nat}
    {sp : String} (hup : updateSpend store h' i' sp = some store2) :
    (∃ o, findOutput store h' i' = some o ∧
      o.state = RequestStateInitial ∧ o.spentBy = none) ∧
    store2 = store.map (fun r =>
      if r.transactionHash = h' ∧ r.index = i' then
        { r with state := RequestStateDone, spentBy := some sp }
      else r) := by
  unfold updateSpend at hup
  cases hfind : findOutput store h' i' with
  | none => rw [hfind] at hup; cases hup
  | some o =>
    rw [hfind] at hup
    dsimp only at hup
    by_cases hcond : o.state = RequestStateInitial ∧ o.spentBy = none
    · rw [if_pos hcond] at hup
      injection hup with hup
      exact ⟨⟨o, rfl, hcond⟩, hup.symm⟩
    · rw [if_neg hcond] at hup; cases hup

theorem findOutput_updateMap (store : List Output) (h' : String) (i' : Nat)
    (sp : String) (h : String) (i : Nat) :
    findOutput (store.map (fun r =>
      if r.transactionHash = h' ∧ r.index = i' then
        { r with state := RequestStateDone, spentBy := some sp }
      else r)) h i
      = (findOutput store h i).map (fun r =>
          if r.transactionHash = h' ∧ r.index = i' then
            { r with state := RequestStateDone, spentBy := some sp }
          else r) := by
  apply find?_map_of_pred
  intro x
  by_cases hx : x.transactionHash = h' ∧ x.index = i'
  · simp [hx]
  · simp [hx]

theorem spentOf_updateSpend {store store2 : List Output} {h' : String} {i' : Nat}
    {sp : String} (hup : updateSpend store h' i' sp = some store2)
    {h : String} {i : Nat} {a : String} (hs : spentOf store h i = some a) :
    spentOf store2 h i = some a := by
  obtain ⟨⟨o, hfind, hinit, hnone⟩, hst⟩ := updateSpend_inv hup
  subst hst
  unfold spentOf at hs ⊢
  rw [findOutput_updateMap]
  cases hf : findOutput store h i with
  | none => rw [hf] at hs; cases hs
  | some r =>
    rw [hf] at hs
    dsimp only at hs
    simp only [Option.map_some']
    by_cases hk : r.transactionHash = h' ∧ r.index = i'
    · exfalso
      have hr := List.find?_some hf
      simp only [decide_eq_true_eq] at hr
      have hh : h' = h := by rw [← hk.1, hr.1]
      have hi : i' = i := by rw [← hk.2, hr.2]
      subst hh; subst hi
      rw [hf] at hfind
      injection hfind with hfind
      rw [hfind] at hs
      rw [hnone] at hs
      cases hs
    · rw [if_neg hk]
      exact hs

theorem done_updateSpend {store store2 : List Output} {h' : String} {i' : Nat}
    {sp : String} (hup : updateSpend store h' i' sp = some store2)
    {h : String} {i : Nat} {o : Output} (hf : findOutput store h i = some o)
    (ho : o.state = RequestStateDone) :
    ∃ o2, findOutput store2 h i = some o2 ∧ o2.state = RequestStateDone := by
  obtain ⟨_, hst⟩ := updateSpend_inv hup
  subst hst
  rw [findOutput_updateMap, hf]
  by_cases hk : o.transactionHash = h' ∧ o.index = i'
  · exact ⟨_, rfl, by simp [hk]⟩
  · exact ⟨_, rfl, by simp [hk, ho]⟩

theorem spentOf_append {store : List Output} (l2 : List Output) {h : String}
    {i : Nat} {a : String} (hs : spentOf store h i = some a) :
    spentOf (store ++ l2) h i = some a := by
  unfold spentOf at hs ⊢
  cases hf : findOutput store h i with
  | none => rw [hf] at hs; cases hs
  | some o =>
    rw [hf] at hs
    rw [findOutput, find?_append_of_some l2 hf]
    exact hs

theorem done_append {store : List Output} (l2 : List Output) {h : String}
    {i : Nat} {o : Output} (hf : findOutput store h i = some o)
    (ho : o.state = RequestStateDone) :
    ∃ o2, findOutput (store ++ l2) h i = some o2 ∧ o2.state = RequestStateDone :=
  ⟨o, find?_append_of_some l2 hf, ho⟩

theorem spentOf_spendFeeInputs {hash : String} {ins : List (String × Nat)}
    {store store2 : List Output}
    (hsp : spendFeeInputs store hash ins = some store2)
    {h : String} {i : Nat} {a : String} (hs : spentOf store h i = some a) :
    spentOf store2 h i = some a := by
  induction ins generalizing store with
  | nil =>
    unfold spendFeeInputs at hsp
    injection hsp with hsp
    rw [← hsp]
    exact hs
  | cons p rest ih =>
    unfold spendFeeInputs at hsp
    cases hup : updateSpend store p.1 p.2 hash with
    | none => rw [hup] at hsp; cases hsp
    | some s1 =>
      rw [hup] at hsp
      exact ih hsp (spentOf_updateSpend hup hs)

theorem done_spendFeeInputs {hash : String} {ins : List (String × Nat)}
    {store store2 : List Output}
    (hsp : spendFeeInputs store hash ins = some store2)
    {h : String} {i : Nat} {o : Output} (hf : findOutput store h i = some o)
    (ho : o.state = RequestStateDone) :
    ∃ o2, findOutput store2 h i = some o2 ∧ o2.state = RequestStateDone := by
  induction ins generalizing store o with
  | nil =>
    unfold spendFeeInputs at hsp
    injection hsp with hsp
    rw [← hsp]
    exact ⟨o, hf, ho⟩
  | cons p rest ih =>
    unfold spendFeeInputs at hsp
    cases hup : updateSpend store p.1 p.2 hash with
    | none => rw [hup] at hsp; cases hsp
    | some s1 =>
      rw [hup] at hsp
      obtain ⟨o2, hf2, ho2⟩ := done_updateSpend hup hf ho
      exact ih hsp hf2 ho2

theorem spentOf_insertFeeOutputs {hash receiver : String} {chain : Nat}
    {spender : String} {outs : List (Nat × Nat)} {store store2 : List Output}
    (hins : insertFeeOutputs hash receiver chain spender store outs = some store2)
    {h : String} {i : Nat} {a : String} (hs : spentOf store h i = some a) :
    spentOf store2 h i = some a := by
  induction outs generalizing store with
  | nil =>
    unfold insertFeeOutputs at hins
    injection hins with hins
    rw [← hins]
    exact hs
  | cons p rest ih =>
    unfold insertFeeOutputs at hins
    cases hf : findOutput store hash p.1 with
    | some _ => rw [hf] at hins; cases hins
    | none =>
      rw [hf] at hins
      exact ih hins (spentOf_append _ hs)

theorem done_insertFeeOutputs {hash receiver : String} {chain : Nat}
    {spender : String} {outs : List (Nat × Nat)} {store store2 : List Output}
    (hins : insertFeeOutputs hash receiver chain spender store outs = some store2)
    {h : String} {i : Nat} {o : Output} (hf : findOutput store h i = some o)
    (ho : o.state = RequestStateDone) :
    ∃ o2, findOutput store2 h i = some o2 ∧ o2.state = RequestStateDone := by
  induction outs generalizing store o with
  | nil =>
    unfold insertFeeOutputs at hins
    injection hins with hins
    rw [← hins]
    exact ⟨o, hf, ho⟩
  | cons p rest ih =>
    unfold insertFeeOutputs at hins
    cases hfx : findOutput store hash p.1 with
    | some _ => rw [hfx] at hins; cases hins
    | none =>
      rw [hfx] at hins
      exact ih hins (find?_append_of_some _ hf) ho

theorem writeBitcoinUTXO_inv {store store2 : List Output} {utxo : Output}
    (h : WriteBitcoinUTXOIfNotExists store utxo = some store2) :
    store2 = store ∨ store2 = store ++ [utxo] := by
  unfold WriteBitcoinUTXOIfNotExists at h
  by_cases hstate : utxo.state = RequestStateInitial
  · simp only [hstate, ne_eq, not_true_eq_false, if_false] at h
    cases hf : findOutput store utxo.transactionHash utxo.index with
    | some _ => rw [hf] at h; injection h with h; exact Or.inl h.symm
    | none => rw [hf] at h; injection h with h; exact Or.inr h.symm
  · simp [hstate] at h

theorem spentOf_applyStoreOp {store : List Output} (op : StoreOp)
    {h : String} {i : Nat} {a : String} (hs : spentOf store h i = some a) :
    spentOf (applyStoreOp store op) h i = some a := by
  cases op with
  | writeUTXO utxo =>
    simp only [applyStoreOp]
    cases hw : WriteBitcoinUTXOIfNotExists store utxo with
    | none => exact hs
    | some s2 =>
      dsimp only
      rcases writeBitcoinUTXO_inv hw with h2 | h2 <;> subst h2
      · exact hs
      · exact spentOf_append _ hs
  | assign lo hi tx =>
    simp only [applyStoreOp]
    unfold AssignBitcoinUTXOByRangeForTransaction
    cases hf : store.find? (assignQueryPred tx lo hi) with
    | none => exact hs
    | some o =>
      dsimp only
      by_cases hsp : o.spentBy = some tx.transactionHash
      · simp only [hsp, if_true]
        exact hs
      · simp only [hsp, if_false]
        cases hup : updateSpend store o.transactionHash o.index tx.transactionHash with
        | none => exact hs
        | some s2 => exact spentOf_updateSpend hup hs
  | feeOutput hash ins outs receiver chain tx =>
    simp only [applyStoreOp]
    unfold WriteBitcoinFeeOutput
    cases hsp : spendFeeInputs store hash ins with
    | none => exact hs
    | some s2 =>
      dsimp only
      cases hins : insertFeeOutputs hash receiver chain tx.transactionHash s2 outs.enum with
      | none => exact hs
      | some s3 =>
        exact spentOf_insertFeeOutputs hins (spentOf_spendFeeInputs hsp hs)

theorem done_applyStoreOp {store : List Output} (op : StoreOp)
    {h : String} {i : Nat} {o : Output} (hf : findOutput store h i = some o)
    (ho : o.state = RequestStateDone) :
    ∃ o2, findOutput (applyStoreOp store op) h i = some o2 ∧
      o2.state = RequestStateDone := by
  cases op with
  | writeUTXO utxo =>
    simp only [applyStoreOp]
    cases hw : WriteBitcoinUTXOIfNotExists store utxo with
    | none => exact ⟨o, hf, ho⟩
    | some s2 =>
      dsimp only
      rcases writeBitcoinUTXO_inv hw with h2 | h2 <;> subst h2
      · exact ⟨o, hf, ho⟩
      · exact done_append _ hf ho
  | assign lo hi tx =>
    simp only [applyStoreOp]
    unfold AssignBitcoinUTXOByRangeForTransaction
    cases hfq : store.find? (assignQueryPred tx lo hi) with
    | none => exact ⟨o, hf, ho⟩
    | some r =>
      dsimp only
      by_cases hsp : r.spentBy = some tx.transactionHash
      · simp only [hsp, if_true]
        exact ⟨o, hf, ho⟩
      · simp only [hsp, if_false]
        cases hup : updateSpend store r.transactionHash r.index tx.transactionHash with
        | none => exact ⟨o, hf, ho⟩
        | some s2 => exact done_updateSpend hup hf ho
  | feeOutput hash ins outs receiver chain tx =>
    simp only [applyStoreOp]
    unfold WriteBitcoinFeeOutput
    cases hsp : spendFeeInputs store hash ins with
    | none => exact ⟨o, hf, ho⟩
    | some s2 =>
      dsimp only
      cases hins : insertFeeOutputs hash receiver chain tx.transactionHash s2 outs.enum with
      | none => exact ⟨o, hf, ho⟩
      | some s3 =>
        obtain ⟨o2, hf2, ho2⟩ := done_spendFeeInputs hsp hf ho
        exact done_insertFeeOutputs hins hf2 ho2

theorem spentOf_foldl (ops : List StoreOp) {store : List Output} {h : String}
    {i : Nat} {a : String} (hs : spentOf store h i = some a) :
    spentOf (ops.foldl applyStoreOp store) h i = some a := by
  induction ops generalizing store with
  | nil => exact hs
  | cons op rest ih => exact ih (spentOf_applyStoreOp op hs)

theorem done_foldl (ops : List StoreOp) {store : List Output} {h : String}
    {i : Nat} {o : Output} (hf : findOutput store h i = some o)
    (ho : o.state = RequestStateDone) :
    ∃ o2, findOutput (ops.foldl applyStoreOp store) h i = some o2 ∧
      o2.state = RequestStateDone := by
  induction ops generalizing store o with
  | nil => exact ⟨o, hf, ho⟩
  | cons op rest ih =>
    obtain ⟨o2, hf2, ho2⟩ := done_applyStoreOp op hf ho
    exact ih hf2 ho2

/-! ## Claim C2. -/

/-- Claim C2 counterexample: `WriteBitcoinFeeOutput` inserts the fee
splitter's first output born in state Done with `SpentBy` already set — the
key `("f", 0)` does not exist in the store before the operation, so this
`SpentBy` assignment does not happen in an atomic update moving an existing
row from Initial to Done, contradicting the claim that `SpentBy` is set only
in such an update. -/
theorem writeBitcoinFeeOutput_born_spent :
    findOutput
      [{ transactionHash := "a", index := 0, address := "acc", satoshi := 100,
         chain := 1, state := RequestStateInitial, spentBy := none }] "f" 0 = none ∧
    findOutput
      (applyStoreOp
        [{ transactionHash := "a", index := 0, address := "acc", satoshi := 100,
           chain := 1, state := RequestStateInitial, spentBy := none }]
        (.feeOutput "f" [("a", 0)] [50, 30] "acc" 1 ⟨"t", 1⟩)) "f" 0
      = some { transactionHash := "f", index := 0, address := "acc", satoshi := 50,
               chain := 1, state := RequestStateDone, spentBy := some "t" } := by
  decide

/-- Claim C2 (amended): a UTXO row's assignment to a spending transaction is
exclusive and permanent — once `SpentBy` holds a transaction hash it holds
that hash after every further sequence of store operations, so at most one
transaction ever has a given UTXO among its inputs; the Initial→Done update
(`updateSpend`, shared by `AssignBitcoinUTXOByRangeForTransaction` and the
input loop of `WriteBitcoinFeeOutput`) applies only to a row in state Initial
with `SpentBy` NULL and sets both atomically; state Done is never left.
`SpentBy` is set either by that update or at row creation, where
`WriteBitcoinFeeOutput` inserts the splitter's first output already spent by
the funded transaction. -/
theorem bitcoinUTXO_assignment_exclusive :
    (∀ (ops : List StoreOp) (store : List Output) (h : String) (i : Nat) (a : String),
      spentOf store h i = some a →
      spentOf (ops.foldl applyStoreOp store) h i = some a) ∧
    (∀ (ops1 ops2 : List StoreOp) (store : List Output) (h : String) (i : Nat) (a b : String),
      spentOf (ops1.foldl applyStoreOp store) h i = some a →
      spentOf ((ops1 ++ ops2).foldl applyStoreOp store) h i = some b →
      a = b) ∧
    (∀ (store store2 : List Output) (h : String) (i : Nat) (sp : String),
      updateSpend store h i sp = some store2 →
      ∃ o, findOutput store h i = some o ∧
        o.state = RequestStateInitial ∧ o.spentBy = none) ∧
    (∀ (ops : List StoreOp) (store : List Output) (h : String) (i : Nat) (o : Output),
      findOutput store h i = some o → o.state = RequestStateDone →
      ∃ o2, findOutput (ops.foldl applyStoreOp store) h i = some o2 ∧
        o2.state = RequestStateDone) := by
  refine ⟨?_, ?_, ?_, ?_⟩
  · intro ops store h i a hs
    exact spentOf_foldl ops hs
  · intro ops1 ops2 store h i a b h1 h2
    rw [List.foldl_append] at h2
    have := spentOf_foldl ops2 h1
    rw [this] at h2
    exact Option.some.inj h2
  · intro store store2 h i sp hup
    exact (updateSpend_inv hup).1
  · intro ops store h i o hf ho
    exact done_foldl ops hf ho

/-- Witness for C2 at concrete inputs: a row already assigned to `"t"` keeps
that assignment across a further write, assignment and fee-output operation. -/
theorem bitcoinUTXO_assignment_exclusive_witness :
    spentOf
      ([StoreOp.writeUTXO
          { transactionHash := "b", index := 0, address := "x", satoshi := 9,
            chain := 1, state := RequestStateInitial, spentBy := none },
        StoreOp.assign 1 100 ⟨"u", 1⟩,
        StoreOp.feeOutput "g" [("b", 0)] [5] "x" 1 ⟨"u", 1⟩].foldl applyStoreOp
        [{ transactionHash := "a", index := 0, address := "acc", satoshi := 100,
           chain := 1, state := RequestStateDone, spentBy := some "t" }]) "a" 0
      = some "t" :=
  bitcoinUTXO_assignment_exclusive.1 _ _ "a" 0 "t" (by decide)

/-! ## Lemmas about writeNetworkInfo. -/

theorem verifyBitcoin_valid_hash_match {b : List Nat → Option Block}
    {info o : NetworkInfo} (h : verifyBitcoinNetworkInfo b info (some o) = .valid)
    (hh : o.hash = info.hash) : o.height = info.height := by
  unfold verifyBitcoinNetworkInfo at h
  by_cases h1 : info.hash.length ≠ 32
  · rw [if_pos h1] at h; cases h
  rw [if_neg h1] at h
  dsimp only at h
  rw [if_pos hh] at h
  by_cases h2 : o.height ≠ info.height
  · rw [if_pos h2] at h; cases h
  · exact not_ne_iff.mp h2

theorem verifyEthereum_valid_hash_match {e : List Nat → Option Block}
    {info o : NetworkInfo} (h : verifyEthereumNetworkInfo e info (some o) = .valid)
    (hh : o.hash = info.hash) : o.height = info.height := by
  unfold verifyEthereumNetworkInfo at h
  by_cases h1 : info.hash.length ≠ 32
  · rw [if_pos h1] at h; cases h
  rw [if_neg h1] at h
  dsimp only at h
  rw [if_pos hh] at h
  by_cases h2 : o.height ≠ info.height
  · rw [if_pos h2] at h; cases h
  · exact not_ne_iff.mp h2

theorem writeNetworkInfoChain_written_inv {cc : Nat → Nat}
    {b e : List Nat → Option Block} {old : Option NetworkInfo} {req : Request}
    {info : NetworkInfo}
    (h : writeNetworkInfoChain cc b e old req = .written info) :
    info = networkInfoFromRequest req ∧
    (∀ o, old = some o → o.hash = info.hash → o.height = info.height) := by
  unfold writeNetworkInfoChain at h
  dsimp only at h
  by_cases h5 : (networkInfoFromRequest req).chain ≠ cc req.curve
  · rw [if_pos h5] at h; cases h
  rw [if_neg h5] at h
  by_cases h6 : (networkInfoFromRequest req).chain = SafeChainBitcoin ∨
      (networkInfoFromRequest req).chain = SafeChainLitecoin
  · rw [if_pos h6] at h
    cases hv : verifyBitcoinNetworkInfo b (networkInfoFromRequest req) old with
    | valid =>
      rw [hv] at h
      injection h with h
      subst h
      refine ⟨rfl, ?_⟩
      intro o ho hh
      subst ho
      exact verifyBitcoin_valid_hash_match hv hh
    | invalid => rw [hv] at h; cases h
    | err => rw [hv] at h; cases h
  · rw [if_neg h6] at h
    by_cases h7 : (networkInfoFromRequest req).chain = SafeChainEthereum ∨
        (networkInfoFromRequest req).chain = SafeChainPolygon
    · rw [if_pos h7] at h
      cases hv : verifyEthereumNetworkInfo e (networkInfoFromRequest req) old with
      | valid =>
        rw [hv] at h
        injection h with h
        subst h
        refine ⟨rfl, ?_⟩
        intro o ho hh
        subst ho
        exact verifyEthereum_valid_hash_match hv hh
      | invalid => rw [hv] at h; cases h
      | err => rw [hv] at h; cases h
    · rw [if_neg h7] at h; cases h

theorem writeNetworkInfo_written_inv {cc : Nat → Nat}
    {b e : List Nat → Option Block} {old : Option NetworkInfo} {req : Request}
    {info : NetworkInfo} (h : writeNetworkInfo cc b e old req = .written info) :
    info = networkInfoFromRequest req ∧
    (∀ o, old = some o → ¬ o.requestId = req.id ∧ o.height ≤ info.height ∧
      (o.hash = info.hash → o.height = info.height)) := by
  unfold writeNetworkInfo at h
  by_cases h1 : req.role ≠ RequestRoleObserver
  · rw [if_pos h1] at h; cases h
  rw [if_neg h1] at h
  by_cases h2 : req.extra.length < 17
  · rw [if_pos h2] at h; cases h
  rw [if_neg h2] at h
  cases old with
  | none =>
    rw [if_neg (by simp)] at h
    rw [if_neg (by simp)] at h
    obtain ⟨hinfo, _⟩ := writeNetworkInfoChain_written_inv h
    refine ⟨hinfo, ?_⟩
    intro o ho
    cases ho
  | some o =>
    dsimp only at h
    by_cases h3 : (o.requestId == req.id) = true
    · rw [if_pos h3] at h; cases h
    rw [if_neg h3] at h
    by_cases h4 : decide ((networkInfoFromRequest req).height < o.height) = true
    · rw [if_pos h4] at h; cases h
    rw [if_neg h4] at h
    obtain ⟨hinfo, hhash⟩ := writeNetworkInfoChain_written_inv h
    refine ⟨hinfo, ?_⟩
    intro o2 ho2
    injection ho2 with ho2
    subst ho2
    refine ⟨by simpa using h3, ?_, hhash o rfl⟩
    rw [hinfo]
    simpa using Nat.not_lt.mp (by simpa using h4)

theorem heightAt_applyNetworkRequest (s : NetworkStep)
    (store : Nat → Option NetworkInfo) (c : Nat) :
    heightAt store c ≤ heightAt (applyNetworkRequest s store) c := by
  unfold applyNetworkRequest
  dsimp only
  cases hw : writeNetworkInfo s.curveChain s.btcRpc s.ethRpc
      (store (s.req.extra.headD 0)) s.req with
  | failed => exact le_refl _
  | fatal => exact le_refl _
  | written info =>
    dsimp only
    obtain ⟨hinfo, hold⟩ := writeNetworkInfo_written_inv hw
    by_cases hc : c = info.chain
    · subst hc
      unfold heightAt
      dsimp only
      rw [if_pos rfl]
      dsimp only
      cases hs : store info.chain with
      | none => exact Nat.zero_le _
      | some o =>
        have hso : store (s.req.extra.headD 0) = some o := by
          have hich : info.chain = s.req.extra.headD 0 := by rw [hinfo]; rfl
          rw [← hich]
          exact hs
        exact (hold o hso).2.1
    · unfold heightAt
      dsimp only
      rw [if_neg hc]

/-! ## Claim C6. -/

/-- Claim C6: across every sequence of network-info requests the stored
latest height for each chain never decreases, and a request carrying a height
lower than the currently stored height is failed (`writeNetworkInfo` returns
the fail-request outcome, which stores nothing). -/
theorem networkInfo_stored_height_monotone :
    (∀ (steps : List NetworkStep) (store : Nat → Option NetworkInfo) (c : Nat),
      heightAt store c ≤ heightAt (runNetworkSteps store steps) c) ∧
    (∀ (cc : Nat → Nat) (b e : List Nat → Option Block) (o : NetworkInfo)
        (req : Request),
      req.role = RequestRoleObserver → 17 ≤ req.extra.length →
      (networkInfoFromRequest req).height < o.height →
      writeNetworkInfo cc b e (some o) req = .failed) := by
  constructor
  · intro steps store c
    induction steps generalizing store with
    | nil => exact le_refl _
    | cons s rest ih =>
      exact le_trans (heightAt_applyNetworkRequest s store c) (ih _)
  · intro cc b e o req hrole hlen hlt
    unfold writeNetworkInfo
    rw [if_neg (by simp [hrole])]
    rw [if_neg (by omega)]
    dsimp only
    by_cases h3 : (o.requestId == req.id) = true
    · rw [if_pos h3]
    · rw [if_neg h3]
      rw [if_pos (by simpa using hlt)]

/-- Witness for C6 at concrete inputs: a request carrying height 50 against a
stored record at height 100 is failed. -/
theorem networkInfo_stored_height_monotone_witness :
    writeNetworkInfo (fun _ => 1) (fun _ => some ⟨50, 0⟩) (fun _ => none)
      (some { requestId := "r1", chain := 1, fee := 10, height := 100,
              hash := List.replicate 32 1 })
      { id := "r2", role := 3, curve := 1,
        extra := [1] ++ [0, 0, 0, 0, 0, 0, 0, 10] ++ [0, 0, 0, 0, 0, 0, 0, 50]
          ++ List.replicate 32 2 }
      = .failed :=
  networkInfo_stored_height_monotone.2 _ _ _ _ _ rfl (by decide) (by decide)

theorem verifyBitcoin_fee_gate {b : List Nat → Option Block} {info : NetworkInfo}
    {old : Option NetworkInfo} (hlen : info.hash.length = 32)
    (hblk : bitcoinBlockCheckPasses b info old) :
    verifyBitcoinNetworkInfo b info old =
      (if info.fee < bitcoinMinimumFeeRate ∨ info.fee > bitcoinMaximumFeeRate
        then Verify.invalid else Verify.valid) := by
  unfold verifyBitcoinNetworkInfo
  rw [if_neg (not_ne_iff.mpr hlen)]
  rcases hblk with ⟨o, ho, hhash, hheight⟩ | ⟨hne, bb, hb, hbh, hbc⟩
  · subst ho
    dsimp only
    rw [if_pos hhash, if_neg (not_ne_iff.mpr hheight)]
  · cases old with
    | some o =>
      dsimp only
      rw [if_neg (hne o rfl), hb]
      dsimp only
      rw [if_neg (not_ne_iff.mpr hbh), if_neg hbc]
    | none =>
      dsimp only
      rw [hb]
      dsimp only
      rw [if_neg (not_ne_iff.mpr hbh), if_neg hbc]

theorem writeNetworkInfo_eval {cc : Nat → Nat} {b e : List Nat → Option Block}
    {old : Option NetworkInfo} {req : Request}
    (hrole : req.role = RequestRoleObserver) (hlen : 17 ≤ req.extra.length)
    (hdup : ∀ o, old = some o → ¬ o.requestId = req.id)
    (hmono : ∀ o, old = some o →
      o.height ≤ (networkInfoFromRequest req).height) :
    writeNetworkInfo cc b e old req = writeNetworkInfoChain cc b e old req := by
  unfold writeNetworkInfo
  rw [if_neg (by simp [hrole])]
  rw [if_neg (by omega)]
  cases old with
  | none => rw [if_neg (by simp), if_neg (by simp)]
  | some o =>
    dsimp only
    rw [if_neg (by simp only [beq_iff_eq]; simpa using hdup o rfl)]
    rw [if_neg (by simp only [decide_eq_true_eq]; exact Nat.not_lt.mpr (hmono o rfl))]

theorem writeNetworkInfoChain_bitcoin {cc : Nat → Nat}
    {b e : List Nat → Option Block} {old : Option NetworkInfo} {req : Request}
    (hchain : (networkInfoFromRequest req).chain = SafeChainBitcoin)
    (hcurve : cc req.curve = SafeChainBitcoin) :
    writeNetworkInfoChain cc b e old req =
      match verifyBitcoinNetworkInfo b (networkInfoFromRequest req) old with
      | .valid => .written (networkInfoFromRequest req)
      | .invalid => .failed
      | .err => .fatal := by
  unfold writeNetworkInfoChain
  dsimp only
  rw [if_neg (not_ne_iff.mpr (by rw [hchain, hcurve]))]
  rw [if_pos (Or.inl hchain)]

/-! ## Claim C5. -/

/-- Claim C5 counterexample: a pushed record carrying the same height as the
stored record but a different hash is not rejected — when the RPC validates
the new block at that height, `writeNetworkInfo` accepts and stores it. The
stored record is at height 100 with hash `1…1`; the request re-pushes height
100 with hash `2…2` and the record is written. -/
theorem writeNetworkInfo_equal_height_new_hash_accepted :
    writeNetworkInfo (fun _ => 1) (fun _ => some ⟨100, 0⟩) (fun _ => none)
      (some { requestId := "r1", chain := 1, fee := 10, height := 100,
              hash := List.replicate 32 1 })
      { id := "r2", role := 3, curve := 1,
        extra := [1] ++ [0, 0, 0, 0, 0, 0, 0, 10] ++ [0, 0, 0, 0, 0, 0, 0, 100]
          ++ List.replicate 32 2 }
      = .written { requestId := "r2", chain := 1, fee := 10, height := 100,
                   hash := List.replicate 32 2 } ∧
    (List.replicate 32 2 ≠ List.replicate 32 1) := by
  constructor
  · decide
  · decide

/-- Claim C5 (amended): `writeNetworkInfo` accepts a record only if its
height is at least the stored height and its request id is new, and whenever
the pushed hash equals the stored hash the heights must match
(re-affirmation); a record with a hash different from the stored one — equal
height included — is accepted when the RPC validates the block at the claimed
height (positive confirmations, fee within bounds), rather than rejected. -/
theorem writeNetworkInfo_acceptance :
    (∀ (cc : Nat → Nat) (b e : List Nat → Option Block) (old info : NetworkInfo)
        (req : Request),
      writeNetworkInfo cc b e (some old) req = .written info →
      old.height ≤ info.height ∧ ¬ old.requestId = req.id ∧
        (old.hash = info.hash → old.height = info.height)) ∧
    (∀ (cc : Nat → Nat) (b e : List Nat → Option Block) (old : NetworkInfo)
        (req : Request) (bb : Block),
      req.role = RequestRoleObserver → 17 ≤ req.extra.length →
      (networkInfoFromRequest req).chain = SafeChainBitcoin →
      cc req.curve = SafeChainBitcoin →
      ¬ old.requestId = req.id →
      old.height ≤ (networkInfoFromRequest req).height →
      (networkInfoFromRequest req).hash.length = 32 →
      ¬ old.hash = (networkInfoFromRequest req).hash →
      b (networkInfoFromRequest req).hash = some bb →
      bb.height = (networkInfoFromRequest req).height →
      bb.confirmations ≠ -1 →
      bitcoinMinimumFeeRate ≤ (networkInfoFromRequest req).fee →
      (networkInfoFromRequest req).fee ≤ bitcoinMaximumFeeRate →
      writeNetworkInfo cc b e (some old) req
        = .written (networkInfoFromRequest req)) := by
  constructor
  · intro cc b e old info req h
    obtain ⟨_, hold⟩ := writeNetworkInfo_written_inv h
    obtain ⟨hid, hh, hm⟩ := hold old rfl
    exact ⟨hh, hid, hm⟩
  · intro cc b e old req bb hrole hlen hchain hcurve hdup hmono hhlen hne hb hbh hbc hf1 hf2
    rw [writeNetworkInfo_eval hrole hlen
      (by intro o ho; injection ho with ho; subst ho; exact hdup)
      (by intro o ho; injection ho with ho; subst ho; exact hmono)]
    rw [writeNetworkInfoChain_bitcoin hchain hcurve]
    rw [verifyBitcoin_fee_gate hhlen
      (Or.inr ⟨(by intro o ho; injection ho with ho; subst ho; exact hne),
        bb, hb, hbh, hbc⟩)]
    rw [if_neg (by omega)]

/-- Witness for C5 at concrete inputs: stored height 200 / hash `3…3`, pushed
height 250 with a new hash validated by the RPC; the amended acceptance
theorem yields the stored record. -/
theorem writeNetworkInfo_acceptance_witness :
    writeNetworkInfo (fun _ => 1) (fun _ => some ⟨250, 2⟩) (fun _ => none)
      (some { requestId := "s1", chain := 1, fee := 7, height := 200,
              hash := List.replicate 32 3 })
      { id := "s2", role := 3, curve := 1,
        extra := [1] ++ [0, 0, 0, 0, 0, 0, 0, 7] ++ [0, 0, 0, 0, 0, 0, 0, 250]
          ++ List.replicate 32 4 }
      = .written (networkInfoFromRequest
          { id := "s2", role := 3, curve := 1,
            extra := [1] ++ [0, 0, 0, 0, 0, 0, 0, 7]
              ++ [0, 0, 0, 0, 0, 0, 0, 250] ++ List.replicate 32 4 }) :=
  writeNetworkInfo_acceptance.2 _ _ _ _ _ ⟨250, 2⟩ rfl (by decide) (by decide)
    (by decide) (by decide) (by decide) (by decide) (by decide) (by decide)
    (by decide) (by decide) (by decide) (by decide)

/-! ## Claim C4. -/

/-- Claim C4: with every non-fee check passing, the keeper accepts a pushed
Bitcoin network-info record exactly when its fee rate `f` satisfies
`1 ≤ f ≤ 1000` sats/vB (`bitcoinMinimumFeeRate = 1`,
`bitcoinMaximumFeeRate = 1000`); for every fee rate outside that range the
request is failed, and a failed request stores nothing; every integer fee
rate from 1 through 1000 inclusive passes the fee check. -/
theorem keeper_bitcoin_fee_rate_bounds :
    (∀ (cc : Nat → Nat) (b e : List Nat → Option Block)
        (old : Option NetworkInfo) (req : Request),
      req.role = RequestRoleObserver → 17 ≤ req.extra.length →
      (networkInfoFromRequest req).chain = SafeChainBitcoin →
      cc req.curve = SafeChainBitcoin →
      (∀ o, old = some o → ¬ o.requestId = req.id) →
      (∀ o, old = some o → o.height ≤ (networkInfoFromRequest req).height) →
      (networkInfoFromRequest req).hash.length = 32 →
      bitcoinBlockCheckPasses b (networkInfoFromRequest req) old →
      ((bitcoinMinimumFeeRate ≤ (networkInfoFromRequest req).fee ∧
          (networkInfoFromRequest req).fee ≤ bitcoinMaximumFeeRate →
        writeNetworkInfo cc b e old req = .written (networkInfoFromRequest req)) ∧
       (¬(bitcoinMinimumFeeRate ≤ (networkInfoFromRequest req).fee ∧
          (networkInfoFromRequest req).fee ≤ bitcoinMaximumFeeRate) →
        writeNetworkInfo cc b e old req = .failed))) ∧
    (∀ f : Nat, 1 ≤ f → f ≤ 1000 →
      ¬(f < bitcoinMinimumFeeRate ∨ f > bitcoinMaximumFeeRate)) ∧
    (∀ (step : NetworkStep) (store : Nat → Option NetworkInfo),
      writeNetworkInfo step.curveChain step.btcRpc step.ethRpc
        (store (step.req.extra.headD 0)) step.req = .failed →
      applyNetworkRequest step store = store) := by
  refine ⟨?_, ?_, ?_⟩
  · intro cc b e old req hrole hlen hchain hcurve hdup hmono hhlen hblk
    have heval : writeNetworkInfo cc b e old req =
        (if (networkInfoFromRequest req).fee < bitcoinMinimumFeeRate ∨
            (networkInfoFromRequest req).fee > bitcoinMaximumFeeRate
          then WriteResult.failed
          else WriteResult.written (networkInfoFromRequest req)) := by
      rw [writeNetworkInfo_eval hrole hlen hdup hmono]
      rw [writeNetworkInfoChain_bitcoin hchain hcurve]
      rw [verifyBitcoin_fee_gate hhlen hblk]
      by_cases hf : (networkInfoFromRequest req).fee < bitcoinMinimumFeeRate ∨
          (networkInfoFromRequest req).fee > bitcoinMaximumFeeRate
      · rw [if_pos hf, if_pos hf]
      · rw [if_neg hf, if_neg hf]
    constructor
    · intro hf
      rw [heval, if_neg (by omega)]
    · intro hf
      rw [heval, if_pos (by omega)]
  · intro f h1 h2
    simp only [bitcoinMinimumFeeRate, bitcoinMaximumFeeRate]
    omega
  · intro step store h
    unfold applyNetworkRequest
    dsimp only
    rw [h]

/-- Witness for C4 at concrete inputs: fee rate 1 (the lower bound) is
accepted against an empty store, fee rate 1001 is failed, and the failed
request leaves the store unchanged. -/
theorem keeper_bitcoin_fee_rate_bounds_witness :
    writeNetworkInfo (fun _ => 1) (fun _ => some ⟨90, 0⟩) (fun _ => none) none
      { id := "f1", role := 3, curve := 1,
        extra := [1] ++ [0, 0, 0, 0, 0, 0, 0, 1] ++ [0, 0, 0, 0, 0, 0, 0, 90]
          ++ List.replicate 32 5 }
      = .written (networkInfoFromRequest
          { id := "f1", role := 3, curve := 1,
            extra := [1] ++ [0, 0, 0, 0, 0, 0, 0, 1]
              ++ [0, 0, 0, 0, 0, 0, 0, 90] ++ List.replicate 32 5 }) ∧
    writeNetworkInfo (fun _ => 1) (fun _ => some ⟨90, 0⟩) (fun _ => none) none
      { id := "f2", role := 3, curve := 1,
        extra := [1] ++ [0, 0, 0, 0, 0, 0, 3, 233] ++ [0, 0, 0, 0, 0, 0, 0, 90]
          ++ List.replicate 32 5 }
      = .failed ∧
    ¬((500 : Nat) < bitcoinMinimumFeeRate ∨ (500 : Nat) > bitcoinMaximumFeeRate) :=
  ⟨((keeper_bitcoin_fee_rate_bounds.1 _ _ _ none _ rfl (by decide) (by decide)
      (by decide) (by intro o ho; cases ho) (by intro o ho; cases ho) (by decide)
      (Or.inr ⟨(by intro o ho; cases ho), ⟨90, 0⟩, by decide, by decide, by decide⟩)).1
      (by decide)),
   ((keeper_bitcoin_fee_rate_bounds.1 _ _ _ none _ rfl (by decide) (by decide)
      (by decide) (by intro o ho; cases ho) (by intro o ho; cases ho) (by decide)
      (Or.inr ⟨(by intro o ho; cases ho), ⟨90, 0⟩, by decide, by decide, by decide⟩)).2
      (by decide)),
   keeper_bitcoin_fee_rate_bounds.2.1 500 (by decide) (by decide)⟩

/-! ## Claim C1. -/

/-- Claim C1 counterexample: `keeperVerifyEthereumTransactionSignatures`
finalizes a recovery transaction signed by Holder and Signer only — the
Observer's signature is not among the partial signatures, yet the stored
approval moves to state Done, contradicting the claim that the Observer is
mandatory. -/
theorem ethVerify_finalizes_without_observer :
    (keeperVerifyEthereumTransactionSignatures
        (fun _ pub => pub == "H" || pub == "S")
        [{ transactionHash := "T", holder := "H", state := 1, raw := "" }]
        [{ holder := "H", signer := "S", observer := "O", address := "A",
           chain := 2 }]
        { txHash := "T", raw := "R" })
      = (.finalized,
         [{ transactionHash := "T", holder := "H", state := RequestStateDone,
            raw := "R" }]) ∧
    (fun (_ : String) (pub : String) => pub == "H" || pub == "S") "R" "O" = false := by
  constructor
  · decide
  · decide

/-- Claim C1 (amended): the observer driver finalizes an Ethereum-family
recovery transaction exactly when at least two of the safe's three
authorities {Holder, Signer, Observer} have partially signed it — any two
suffice, the Observer is not required; with fewer than two it returns the
insufficient-signatures error and leaves the stored approvals unchanged. -/
theorem ethVerify_two_signatures_suffice
    (signedBy : String → String → Bool) (txs : List EthTransactionApproval)
    (safes : List EthSafe) (st : SafeTransactionInfo)
    (tx : EthTransactionApproval) (safe : EthSafe)
    (htx : txs.find? (fun t => t.transactionHash == st.txHash) = some tx)
    (hstate : tx.state < RequestStateDone)
    (hsafe : safes.find? (fun s => s.holder == tx.holder) = some safe)
    (hchain : safe.chain = SafeChainEthereum ∨ safe.chain = SafeChainPolygon) :
    (2 ≤ [safe.holder, safe.observer, safe.signer].countP
        (fun pub => signedBy st.raw pub) →
      (keeperVerifyEthereumTransactionSignatures signedBy txs safes st).1
          = .finalized ∧
      ∀ t ∈ (keeperVerifyEthereumTransactionSignatures signedBy txs safes st).2,
        t.transactionHash = st.txHash → t.state = RequestStateDone) ∧
    ([safe.holder, safe.observer, safe.signer].countP
        (fun pub => signedBy st.raw pub) < 2 →
      keeperVerifyEthereumTransactionSignatures signedBy txs safes st
        = (.insufficient ([safe.holder, safe.observer, safe.signer].countP
            (fun pub => signedBy st.raw pub)), txs)) := by
  have hbase : keeperVerifyEthereumTransactionSignatures signedBy txs safes st
      = (if [safe.holder, safe.observer, safe.signer].countP
            (fun pub => signedBy st.raw pub) < 2
        then (.insufficient ([safe.holder, safe.observer, safe.signer].countP
            (fun pub => signedBy st.raw pub)), txs)
        else (.finalized, txs.map (fun t =>
          if t.transactionHash == st.txHash then
            { t with state := RequestStateDone, raw := st.raw }
          else t))) := by
    unfold keeperVerifyEthereumTransactionSignatures
    rw [htx]
    dsimp only
    rw [if_neg (Nat.not_le.mpr hstate), hsafe]
    dsimp only
    rw [if_neg (by
      rcases hchain with hc | hc
      · exact fun hcon => hcon.1 hc
      · exact fun hcon => hcon.2 hc)]
  constructor
  · intro hsigs
    rw [hbase, if_neg (Nat.not_lt.mpr hsigs)]
    refine ⟨rfl, ?_⟩
    intro t ht hhash
    simp only [List.mem_map] at ht
    obtain ⟨t0, _, ht0⟩ := ht
    by_cases hk : (t0.transactionHash == st.txHash) = true
    · rw [if_pos hk] at ht0
      rw [← ht0]
    · rw [if_neg hk] at ht0
      subst ht0
      exact absurd hhash (by simpa using hk)
  · intro hsigs
    rw [hbase, if_pos hsigs]

/-- Witness for C1 at concrete inputs: a transaction partially signed by the
Observer and the Signer (two of three) is finalized, and one signed by the
Holder alone receives the insufficient-signatures error with the store
unchanged. -/
theorem ethVerify_two_signatures_suffice_witness :
    (keeperVerifyEthereumTransactionSignatures
        (fun _ pub => pub == "O2" || pub == "S2")
        [{ transactionHash := "T2", holder := "H2", state := 1, raw := "" }]
        [{ holder := "H2", signer := "S2", observer := "O2", address := "A2",
           chain := 2 }]
        { txHash := "T2", raw := "R2" }).1 = .finalized ∧
    keeperVerifyEthereumTransactionSignatures
        (fun _ pub => pub == "H2")
        [{ transactionHash := "T2", holder := "H2", state := 1, raw := "" }]
        [{ holder := "H2", signer := "S2", observer := "O2", address := "A2",
           chain := 2 }]
        { txHash := "T2", raw := "R2" }
      = (.insufficient 1,
         [{ transactionHash := "T2", holder := "H2", state := 1, raw := "" }]) :=
  ⟨(ethVerify_two_signatures_suffice _ _ _ _
      { transactionHash := "T2", holder := "H2", state := 1, raw := "" }
      { holder := "H2", signer := "S2", observer := "O2", address := "A2",
        chain := 2 }
      (by decide) (by decide) (by decide) (Or.inl rfl)).1 (by decide) |>.1,
   (ethVerify_two_signatures_suffice _ _ _ _
      { transactionHash := "T2", holder := "H2", state := 1, raw := "" }
      { holder := "H2", signer := "S2", observer := "O2", address := "A2",
        chain := 2 }
      (by decide) (by decide) (by decide) (Or.inl rfl)).2 (by decide)⟩

/-! ## Claim C8. -/

theorem mapM_eq_none_of_mem {α β : Type} (f : α → Option β) {l : List α} {c : α}
    (hc : c ∈ l) (hf : f c = none) : l.mapM f = none := by
  induction l with
  | nil => cases hc
  | cons a l ih =>
    rw [List.mapM_cons]
    rcases List.mem_cons.mp hc with rfl | hmem
    · rw [hf]; rfl
    · cases hfa : f a with
      | none => rfl
      | some b => rw [ih hmem]; rfl

/-- Claim C8: for each input requiring the safe multisig branch, the
combination produces exactly the witness stack
`[empty, holderSig||SIGHASH_ALL, signerSig||SIGHASH_ALL, 1, witnessScript]`,
and succeeds only when the holder partial-sig pubkey equals the transaction
Holder, the signer partial-sig pubkey equals the transaction Signer, the
signer signature equals the stored keeper signature response and DER-verifies
over the input sighash; any mismatch on any input aborts the whole process,
so the transaction is not finalized or broadcast. -/
theorem bitcoin_safe_witness_stack :
    (∀ (derVerify : String → List Nat → List Nat → Bool) (holder signer : String)
        (c : BtcInputCtx) (w : List (List Nat)),
      bitcoinSafeInputWitness derVerify holder signer c = some w →
      w = [[], c.hsig.signature ++ [SigHashAll],
        c.ssig.signature ++ [SigHashAll], [1], c.script] ∧
      c.hsig.pubKey = holder ∧ c.ssig.pubKey = signer ∧
      c.storedSig = some c.ssig.signature ∧
      derVerify signer c.sigHash c.ssig.signature = true) ∧
    (∀ (derVerify : String → List Nat → List Nat → Bool)
        (accSign : List Nat → List Nat) (holder signer : String) (txState : Nat)
        (inputs : List BtcInputCtx) (c : BtcInputCtx),
      txState ≠ RequestStateDone → c ∈ inputs → c.required = true →
      bitcoinSafeInputWitness derVerify holder signer c = none →
      bitcoinAccountantSignTransaction derVerify accSign holder signer txState
        inputs = .aborted) := by
  constructor
  · intro dv hol sig c w h
    unfold bitcoinSafeInputWitness at h
    by_cases h1 : c.hsig.pubKey ≠ hol
    · rw [if_pos h1] at h; cases h
    rw [if_neg h1] at h
    by_cases h2 : c.ssig.pubKey ≠ sig
    · rw [if_pos h2] at h; cases h
    rw [if_neg h2] at h
    by_cases h3 : c.storedSig ≠ some c.ssig.signature
    · rw [if_pos h3] at h; cases h
    rw [if_neg h3] at h
    by_cases h4 : dv sig c.sigHash c.ssig.signature = false
    · rw [if_pos h4] at h; cases h
    rw [if_neg h4] at h
    injection h with h
    refine ⟨h.symm, not_ne_iff.mp h1, not_ne_iff.mp h2, not_ne_iff.mp h3, ?_⟩
    cases hb : dv sig c.sigHash c.ssig.signature
    · exact absurd hb h4
    · rfl
  · intro dv acc hol sig stt inputs c hst hmem hreq hnone
    unfold bitcoinAccountantSignTransaction
    rw [if_neg hst]
    have hmap : inputs.mapM (fun c => if c.required then
        bitcoinSafeInputWitness dv hol sig c
        else some (bitcoinAccountantInputWitness acc c)) = none :=
      mapM_eq_none_of_mem _ hmem (by simp [hreq, hnone])
    rw [hmap]

/-- Witness for C8 at concrete inputs: a matching input yields exactly the
five-element witness stack, and a failing DER verification aborts the whole
signing process. -/
theorem bitcoin_safe_witness_stack_witness :
    bitcoinSafeInputWitness (fun _ _ _ => true) "HP" "SP"
        { required := true, hsig := ⟨"HP", [1, 2]⟩, ssig := ⟨"SP", [3, 4]⟩,
          sigHash := [9], script := [5], storedSig := some [3, 4] }
      = some [[], [1, 2, 1], [3, 4, 1], [1], [5]] ∧
    bitcoinAccountantSignTransaction (fun _ _ _ => false) (fun _ => [7])
        "HP" "SP" 1
        [{ required := true, hsig := ⟨"HP", [1, 2]⟩, ssig := ⟨"SP", [3, 4]⟩,
           sigHash := [9], script := [5], storedSig := some [3, 4] }]
      = .aborted := by
  constructor
  · have h := (bitcoin_safe_witness_stack.1 (fun _ _ _ => true) "HP" "SP"
      { required := true, hsig := ⟨"HP", [1, 2]⟩, ssig := ⟨"SP", [3, 4]⟩,
        sigHash := [9], script := [5], storedSig := some [3, 4] }
      [[], [1, 2, 1], [3, 4, 1], [1], [5]] (by decide)).1
    decide
  · exact bitcoin_safe_witness_stack.2 (fun _ _ _ => false) (fun _ => [7])
      "HP" "SP" 1 _
      { required := true, hsig := ⟨"HP", [1, 2]⟩, ssig := ⟨"SP", [3, 4]⟩,
        sigHash := [9], script := [5], storedSig := some [3, 4] }
      (by decide) (by decide) (by decide) (by decide)

/-! ## Claim C3. -/

theorem processOutput_cached {σ Tx : Type} (handler : σ → MtgOutput → σ × List Tx)
    (s : ProcState σ Tx) (out : MtgOutput) {v : List Tx}
    (h : cacheLookup s.cache (out.outputId, out.requestId) = some v) :
    processOutput handler s out = (s, v) := by
  unfold processOutput
  rw [h]

theorem cacheLookup_processOutput {σ Tx : Type}
    (handler : σ → MtgOutput → σ × List Tx) (s : ProcState σ Tx)
    (out : MtgOutput) :
    cacheLookup (processOutput handler s out).1.cache (out.outputId, out.requestId)
      = some (processOutput handler s out).2 := by
  unfold processOutput
  cases hl : cacheLookup s.cache (out.outputId, out.requestId) with
  | some txs => exact hl
  | none =>
    dsimp only
    unfold cacheLookup
    rw [List.find?_cons]
    simp

theorem cacheLookup_preserved {σ Tx : Type}
    (handler : σ → MtgOutput → σ × List Tx) (s : ProcState σ Tx)
    (o : MtgOutput) {k : String × String} {v : List Tx}
    (h : cacheLookup s.cache k = some v) :
    cacheLookup (processOutput handler s o).1.cache k = some v := by
  unfold processOutput
  cases hl : cacheLookup s.cache (o.outputId, o.requestId) with
  | some txs => exact h
  | none =>
    dsimp only
    by_cases hk : (o.outputId, o.requestId) = k
    · rw [hk] at hl
      rw [h] at hl
      cases hl
    · unfold cacheLookup at h ⊢
      rw [List.find?_cons]
      have hp : (decide ((((o.outputId, o.requestId),
          (handler s.inner o).2) : (String × String) × List Tx).1 = k)) = false := by
        simp [hk]
      rw [hp]
      exact h

theorem cacheLookup_processOutputs {σ Tx : Type}
    (handler : σ → MtgOutput → σ × List Tx) (s : ProcState σ Tx)
    (outs : List MtgOutput) {k : String × String} {v : List Tx}
    (h : cacheLookup s.cache k = some v) :
    cacheLookup (processOutputs handler s outs).cache k = some v := by
  induction outs generalizing s with
  | nil => exact h
  | cons o rest ih => exact ih _ (cacheLookup_preserved handler s o h)

/-- Claim C3: an MTG output delivered again — after any number of other
deliveries in between — is recognized by `(OutputId, RequestId)` in the
action-result cache: the repeated delivery returns exactly the transactions
of the first delivery and leaves the processor state unchanged, so every
later delivery is idempotent. -/
theorem processOutput_replay_idempotent {σ Tx : Type}
    (handler : σ → MtgOutput → σ × List Tx) (s0 : ProcState σ Tx)
    (out : MtgOutput) (rest : List MtgOutput) :
    processOutput handler
        (processOutputs handler (processOutput handler s0 out).1 rest) out
      = (processOutputs handler (processOutput handler s0 out).1 rest,
         (processOutput handler s0 out).2) := by
  have h1 := cacheLookup_processOutput handler s0 out
  have h2 := cacheLookup_processOutputs handler _ rest h1
  exact processOutput_cached handler _ out h2

/-- Witness for C3 at a concrete handler and delivery sequence. -/
theorem processOutput_replay_idempotent_witness :
    processOutput (fun (n : Nat) (o : MtgOutput) => (n + 1, [o.outputId]))
        (processOutputs (fun (n : Nat) (o : MtgOutput) => (n + 1, [o.outputId]))
          (processOutput (fun (n : Nat) (o : MtgOutput) => (n + 1, [o.outputId]))
            ⟨0, []⟩ ⟨"o1", "r1"⟩).1 [⟨"o2", "r2"⟩]) ⟨"o1", "r1"⟩
      = (processOutputs (fun (n : Nat) (o : MtgOutput) => (n + 1, [o.outputId]))
          (processOutput (fun (n : Nat) (o : MtgOutput) => (n + 1, [o.outputId]))
            ⟨0, []⟩ ⟨"o1", "r1"⟩).1 [⟨"o2", "r2"⟩],
         (processOutput (fun (n : Nat) (o : MtgOutput) => (n + 1, [o.outputId]))
            ⟨0, []⟩ ⟨"o1", "r1"⟩).2) :=
  processOutput_replay_idempotent _ ⟨0, []⟩ ⟨"o1", "r1"⟩ [⟨"o2", "r2"⟩]

/-! ## Claim C7. -/

/-- Claim C7: a `SafeRevokeTransaction` whose signature over
`REVOKE:<requestId>:<txHash>` verifies against the holder key or the derived
observer key succeeds, and afterwards the stored transaction is in state
Failed, no signature request of the transaction remains in state Initial, and
every UTXO the transaction had assigned is back in the Initial state with its
assignment cleared (and no UTXO remains assigned to it). -/
theorem safeRevoke_effects (verifySig : String → String → Bool)
    (holder observerDerived : String) (st : KeeperState) (reqId : String)
    (t : KeeperTransaction)
    (hfind : st.transactions.find? (fun u => u.requestId == reqId) = some t)
    (hsig : verifySig ("REVOKE:" ++ reqId ++ ":" ++ t.transactionHash) holder = true ∨
      verifySig ("REVOKE:" ++ reqId ++ ":" ++ t.transactionHash) observerDerived
        = true) :
    ∃ st2, safeRevokeTransaction verifySig holder observerDerived st reqId
        = some st2 ∧
      (∀ u ∈ st2.transactions, u.transactionHash = t.transactionHash →
        u.state = RequestStateFailed) ∧
      (∀ r ∈ st2.signatureRequests, r.transactionHash = t.transactionHash →
        ¬ r.state = RequestStateInitial) ∧
      (∀ o ∈ st2.utxos, ¬ o.spentBy = some t.transactionHash) ∧
      (∀ o ∈ st.utxos, o.spentBy = some t.transactionHash →
        { o with state := RequestStateInitial, spentBy := none } ∈ st2.utxos) := by
  unfold safeRevokeTransaction
  rw [hfind]
  dsimp only
  rw [if_pos (by rcases hsig with h | h <;> simp [h])]
  refine ⟨_, rfl, ?_, ?_, ?_, ?_⟩
  · intro u hu hh
    simp only [List.mem_map] at hu
    obtain ⟨u0, _, hu0⟩ := hu
    by_cases hk : u0.transactionHash = t.transactionHash
    · rw [if_pos hk] at hu0
      rw [← hu0]
    · rw [if_neg hk] at hu0
      subst hu0
      exact absurd hh hk
  · intro r hr hh
    simp only [List.mem_map] at hr
    obtain ⟨r0, _, hr0⟩ := hr
    by_cases hk : r0.transactionHash = t.transactionHash ∧
        r0.state = RequestStateInitial
    · rw [if_pos hk] at hr0
      rw [← hr0]
      simp [RequestStateFailed, RequestStateInitial]
    · rw [if_neg hk] at hr0
      subst hr0
      intro hinit
      exact hk ⟨hh, hinit⟩
  · intro o ho
    simp only [List.mem_map] at ho
    obtain ⟨o0, _, ho0⟩ := ho
    by_cases hk : o0.spentBy = some t.transactionHash
    · rw [if_pos hk] at ho0
      rw [← ho0]
      simp
    · rw [if_neg hk] at ho0
      subst ho0
      exact hk
  · intro o ho hsp
    simp only [List.mem_map]
    exact ⟨o, ho, by rw [if_pos hsp]⟩

/-- Witness for C7 at concrete inputs: revoking the pending transaction `TX`
fails its row, closes its Initial signature request and releases its UTXO. -/
theorem safeRevoke_effects_witness :
    ∃ st2, safeRevokeTransaction (fun _ pub => pub == "HK") "HK" "OK"
        { transactions := [{ transactionHash := "TX", requestId := "RQ",
                             holder := "HK", state := RequestStatePending }],
          signatureRequests := [{ requestId := "SR", transactionHash := "TX",
                                  inputIndex := 0,
                                  state := RequestStateInitial }],
          utxos := [{ transactionHash := "d", index := 0, address := "ad",
                      satoshi := 10, chain := 1, state := RequestStateDone,
                      spentBy := some "TX" }] } "RQ" = some st2 ∧
      (∀ u ∈ st2.transactions, u.transactionHash = "TX" →
        u.state = RequestStateFailed) ∧
      (∀ r ∈ st2.signatureRequests, r.transactionHash = "TX" →
        ¬ r.state = RequestStateInitial) := by
  obtain ⟨st2, heq, htx, hsr, _, _⟩ := safeRevoke_effects
    (fun _ pub => pub == "HK") "HK" "OK"
    { transactions := [{ transactionHash := "TX", requestId := "RQ",
                         holder := "HK", state := RequestStatePending }],
      signatureRequests := [{ requestId := "SR", transactionHash := "TX",
                              inputIndex := 0, state := RequestStateInitial }],
      utxos := [{ transactionHash := "d", index := 0, address := "ad",
                  satoshi := 10, chain := 1, state := RequestStateDone,
                  spentBy := some "TX" }] } "RQ"
    { transactionHash := "TX", requestId := "RQ", holder := "HK",
      state := RequestStatePending }
    (by decide) (Or.inl (by decide))
  exact ⟨st2, heq, htx, hsr⟩
